import Mathlib

/-!
# Formal model of the file watcher (`src/watcher.go`)

This file gives a shallow embedding of the change-detection engine of the
watcher: the hash store, `hashFile`, `hashFiles`, `fileChanged`, the body of
the event-driven loop (`watchAuto`) and the body of the timed sweep
(`watchTimed`), together with theorems about the claims of the specification.

Modelling choices:
* A file's bytes are a `List Nat`; the filesystem at one instant is a function
  `FS := String → Option (List Nat)` (`none` models a read error from
  `ioutil.ReadFile`).
* The digest function `crypto/sha256.Sum256` is an opaque library primitive;
  it is passed as an explicit parameter `sum256 : List Nat → Digest` to every
  definition that the Go code derives from it.  No property of `sum256` is
  assumed; theorems that need one (determinism is free, it is a function)
  state it as a hypothesis.
* The Go `map[string][32]byte` is an association list with unique keys;
  `storeIndex` reproduces Go map indexing, which yields the zero value
  `[32]byte{}` for a missing key.
* The infinite loops are modelled by their bodies: `processEvent` is one
  iteration of the `watchAuto` select loop on an incoming event, and
  `watchSweepAux`/`sweepNotify` are one timer tick of `watchTimed`.  Effects
  (`watcher.Add`, `notify <- true`, the `fileChanged` call) are recorded in an
  action trace.
-/

/-- A digest models a Go `[32]byte` SHA-256 value, as a list of byte values. -/
abbrev Digest := List Nat

/-- The Go zero value of `[32]byte`: 32 zero bytes.  Indexing a
`map[string][32]byte` at a missing key yields this value. -/
def zeroDigest : Digest := List.replicate 32 0

/-- The hash store `map[string][32]byte`, as an association list. -/
abbrev Store := List (String × Digest)

/-- Lookup in the store (`value, ok := m[k]` semantics, `ok` as `Option`). -/
def storeFind : Store → String → Option Digest
  | [], _ => none
  | (k, v) :: rest, key => if k = key then some v else storeFind rest key

/-- Go map assignment `m[k] = v`: overwrite the binding in place if the key is
present, otherwise add a new binding. -/
def storeSet : Store → String → Digest → Store
  | [], key, val => [(key, val)]
  | (k, v) :: rest, key, val =>
      if k = key then (key, val) :: rest else (k, v) :: storeSet rest key val

/-- Go map indexing `oldHash := hashes[name]`: the zero value for a missing
key. -/
def storeIndex (st : Store) (key : String) : Digest :=
  (storeFind st key).getD zeroDigest

/-- The keys currently bound in the store. -/
def storeKeys (st : Store) : List String := st.map Prod.fst

/-- Go `path.Base`: the last element of a slash-separated path.  Trailing
slashes are removed first; the empty path gives `"."`; an all-slash path gives
`"/"`. -/
def pathBase (p : String) : String :=
  if p = "" then "."
  else
    let r := p.toList.reverse.dropWhile (fun c => c = '/')
    let b := (r.takeWhile (fun c => c ≠ '/')).reverse
    if b = [] then "/" else String.mk b

/-- The filesystem at one instant: the bytes each path currently reads as,
`none` when `ioutil.ReadFile` fails for that path. -/
abbrev FS := String → Option (List Nat)

/-- `hashFile` of `watcher.go`: read the file and digest its contents; a read
error is propagated (`none`), never a zero digest. -/
def hashFile (sum256 : List Nat → Digest) (fs : FS) (file : String) : Option Digest :=
  (fs file).map sum256

/-- `fileChanged` of `watcher.go`: re-hash the file; on read error log and
return `false` leaving the store alone; otherwise compare with
`hashes[path.Base(file)]` (zero value when absent) and on a difference store
the new digest and return `true`. -/
def fileChanged (sum256 : List Nat → Digest) (fs : FS) (hashes : Store)
    (file : String) : Bool × Store :=
  match hashFile sum256 fs file with
  | none => (false, hashes)
  | some newHash =>
      let name := pathBase file
      let oldHash := storeIndex hashes name
      if oldHash ≠ newHash then (true, storeSet hashes name newHash)
      else (false, hashes)

/-- The loop of `hashFiles` of `watcher.go`, with the store built so far as
accumulator: hash each file, skipping (`continue`) the ones whose read
fails. -/
def hashFilesAux (sum256 : List Nat → Digest) (fs : FS) : Store → List String → Store
  | st, [] => st
  | st, file :: rest =>
      match hashFile sum256 fs file with
      | none => hashFilesAux sum256 fs st rest
      | some h => hashFilesAux sum256 fs (storeSet st (pathBase file) h) rest

/-- `hashFiles` of `watcher.go`: initial population of the store. -/
def hashFiles (sum256 : List Nat → Digest) (fs : FS) (files : List String) : Store :=
  hashFilesAux sum256 fs [] files

/-- A raw fsnotify event: the path it names and its `Op` bitmask. -/
structure Event where
  name : String
  op : Nat
deriving DecidableEq, Repr

/-- The `fsnotify.Create` bit of an event `Op`. -/
def fsnotifyCreate : Nat := 1

/-- Observable effects of one iteration of a watch loop. -/
inductive WatchAction where
  /-- `watcher.Add(file)`: (re-)register a subscription on `file`. -/
  | add (file : String)
  /-- a `fileChanged(hashes, file)` invocation. -/
  | detect (file : String)
  /-- `notify <- true`. -/
  | notify
deriving DecidableEq, Repr

/-- The file a `detect` action was invoked on, if any. -/
def detectTarget : WatchAction → Option String
  | WatchAction.detect f => some f
  | _ => none

/-- Whether an action is a notification send. -/
def isNotify : WatchAction → Bool
  | WatchAction.notify => true
  | _ => false

/-- Whether an action is a `fileChanged` invocation. -/
def isDetect : WatchAction → Bool
  | WatchAction.detect _ => true
  | _ => false

/-- One iteration of the `watchAuto` event loop of `watcher.go` on a received
event, scanning the watched files in order: on the first file whose base name
matches the event's base name, re-register the watch when the `Create` bit is
set, invoke `fileChanged`, send one notification when it reports a change, and
`break`.  Returns the trace of effects and the updated store. -/
def processEvent (sum256 : List Nat → Digest) (fs : FS) (ev : Event) :
    Store → List String → List WatchAction × Store
  | st, [] => ([], st)
  | st, file :: rest =>
      if pathBase ev.name = pathBase file then
        let adds := if ev.op &&& fsnotifyCreate = fsnotifyCreate
          then [WatchAction.add file] else []
        let r := fileChanged sum256 fs st file
        (adds ++ [WatchAction.detect file]
          ++ (if r.1 then [WatchAction.notify] else []), r.2)
      else
        processEvent sum256 fs ev st rest

/-- The sweep loop of `watchTimed` of `watcher.go`, with the `change` flag as
accumulator: invoke `fileChanged` on every watched file, remembering whether
any reported a change. -/
def watchSweepAux (sum256 : List Nat → Digest) (fs : FS) :
    Bool → Store → List String → Bool × Store
  | change, st, [] => (change, st)
  | change, st, file :: rest =>
      let r := fileChanged sum256 fs st file
      watchSweepAux sum256 fs (change || r.1) r.2 rest

/-- The notifications one timer tick of `watchTimed` sends: one `true` on the
channel when the sweep saw a change, nothing otherwise. -/
def sweepNotify (sum256 : List Nat → Digest) (fs : FS) (st : Store)
    (files : List String) : List Bool :=
  if (watchSweepAux sum256 fs false st files).1 then [true] else []

/-- The per-file results of the `fileChanged` calls of one sweep, in order. -/
def sweepDetects (sum256 : List Nat → Digest) (fs : FS) :
    Store → List String → List Bool
  | _, [] => []
  | st, file :: rest =>
      let r := fileChanged sum256 fs st file
      r.1 :: sweepDetects sum256 fs r.2 rest

/-- A run of checks after initial population: each check is a file together
with the bytes its read yields at that instant (`none` = read error), fed to
`fileChanged` in sequence.  Both watch loops perform exactly such
`fileChanged` calls on files of the watched list. -/
def runChecks (sum256 : List Nat → Digest) :
    Store → List (String × Option (List Nat)) → Store
  | st, [] => st
  | st, (file, bytes) :: rest =>
      runChecks sum256 (fileChanged sum256 (fun _ => bytes) st file).2 rest

example : pathBase "/tmp/a.txt" = "a.txt" := by decide
example : pathBase "a.txt" = "a.txt" := by decide
example : pathBase "/x/y/" = "y" := by decide
example : pathBase "///" = "/" := by decide
example : pathBase "" = "." := by decide

/-! ## Store lemmas -/

theorem storeFind_storeSet_self (st : Store) (k : String) (v : Digest) :
    storeFind (storeSet st k v) k = some v := by
  induction st with
  | nil => simp [storeSet, storeFind]
  | cons p rest ih =>
      obtain ⟨k1, v1⟩ := p
      by_cases h : k1 = k
      · subst h; simp [storeSet, storeFind]
      · simp [storeSet, storeFind, h, ih]

theorem storeFind_storeSet_ne (st : Store) {k k' : String} (h : k' ≠ k)
    (v : Digest) : storeFind (storeSet st k v) k' = storeFind st k' := by
  induction st with
  | nil => simp [storeSet, storeFind, Ne.symm h]
  | cons p rest ih =>
      obtain ⟨k1, v1⟩ := p
      by_cases h1 : k1 = k
      · subst h1; simp [storeSet, storeFind, Ne.symm h]
      · simp only [storeSet, if_neg h1, storeFind]
        by_cases h2 : k1 = k'
        · simp [h2]
        · simp [h2, ih]

theorem storeFind_isSome_iff (st : Store) (k : String) :
    storeFind st k ≠ none ↔ k ∈ storeKeys st := by
  induction st with
  | nil => simp [storeFind, storeKeys]
  | cons p rest ih =>
      obtain ⟨k1, v1⟩ := p
      by_cases h : k1 = k
      · subst h; simp [storeFind, storeKeys]
      · simp [storeFind, h, storeKeys, ih, Ne.symm h]

theorem storeFind_storeSet_isSome (st : Store) (k k' : String) (v : Digest)
    (h : storeFind st k' ≠ none) : storeFind (storeSet st k v) k' ≠ none := by
  by_cases hk : k' = k
  · subst hk; simp [storeFind_storeSet_self]
  · rwa [storeFind_storeSet_ne st hk]

theorem mem_storeKeys_storeSet (st : Store) (k : String) (v : Digest)
    (k' : String) :
    k' ∈ storeKeys (storeSet st k v) ↔ k' ∈ storeKeys st ∨ k' = k := by
  induction st with
  | nil => simp [storeSet, storeKeys]
  | cons p rest ih =>
      obtain ⟨k1, v1⟩ := p
      by_cases h : k1 = k
      · subst h; simp [storeSet, storeKeys]; tauto
      · simp [storeSet, h, storeKeys] at ih ⊢
        tauto

theorem storeKeys_storeSet_nodup (st : Store) (k : String) (v : Digest)
    (h : (storeKeys st).Nodup) : (storeKeys (storeSet st k v)).Nodup := by
  induction st with
  | nil => simp [storeSet, storeKeys]
  | cons p rest ih =>
      obtain ⟨k1, v1⟩ := p
      simp only [storeKeys, List.map_cons, List.nodup_cons] at h
      by_cases h1 : k1 = k
      · subst h1
        simpa [storeSet, storeKeys] using h
      · have : (storeKeys (storeSet rest k v)).Nodup := ih h.2
        simp only [storeSet, if_neg h1, storeKeys, List.map_cons,
          List.nodup_cons]
        refine ⟨fun hmem => ?_, this⟩
        rcases (mem_storeKeys_storeSet rest k v k1).mp hmem with hm | hm
        · exact h.1 hm
        · exact h1 hm

/-! ## `fileChanged` case analysis -/

theorem fileChanged_read_err (sum256 : List Nat → Digest) {fs : FS}
    {file : String} (st : Store) (h : fs file = none) :
    fileChanged sum256 fs st file = (false, st) := by
  simp [fileChanged, hashFile, h]

theorem fileChanged_same (sum256 : List Nat → Digest) {fs : FS} {file : String}
    {data : List Nat} (st : Store) (h : fs file = some data)
    (he : storeIndex st (pathBase file) = sum256 data) :
    fileChanged sum256 fs st file = (false, st) := by
  simp [fileChanged, hashFile, h, he]

theorem fileChanged_diff (sum256 : List Nat → Digest) {fs : FS} {file : String}
    {data : List Nat} (st : Store) (h : fs file = some data)
    (hne : storeIndex st (pathBase file) ≠ sum256 data) :
    fileChanged sum256 fs st file
      = (true, storeSet st (pathBase file) (sum256 data)) := by
  simp [fileChanged, hashFile, h, hne]

theorem fileChanged_frame_lemma (sum256 : List Nat → Digest) (fs : FS)
    (st : Store) (file : String) (k : String) (hk : k ≠ pathBase file) :
    storeFind (fileChanged sum256 fs st file).2 k = storeFind st k := by
  rcases hf : hashFile sum256 fs file with _ | d
  · simp [fileChanged, hf]
  · simp only [fileChanged, hf]
    split
    · exact storeFind_storeSet_ne st hk d
    · rfl

theorem fileChanged_isSome_mono (sum256 : List Nat → Digest) (fs : FS)
    (st : Store) (file k : String) (h : storeFind st k ≠ none) :
    storeFind (fileChanged sum256 fs st file).2 k ≠ none := by
  rcases hf : hashFile sum256 fs file with _ | d
  · simpa [fileChanged, hf] using h
  · simp only [fileChanged, hf]
    split
    · exact storeFind_storeSet_isSome st _ k d h
    · exact h

theorem fileChanged_keys_sub (sum256 : List Nat → Digest) (fs : FS)
    (st : Store) (file k : String)
    (h : storeFind (fileChanged sum256 fs st file).2 k ≠ none) :
    storeFind st k ≠ none ∨ k = pathBase file := by
  by_cases hk : k = pathBase file
  · exact Or.inr hk
  · rw [fileChanged_frame_lemma sum256 fs st file k hk] at h
    exact Or.inl h

theorem fileChanged_nodup (sum256 : List Nat → Digest) (fs : FS) (st : Store)
    (file : String) (h : (storeKeys st).Nodup) :
    (storeKeys (fileChanged sum256 fs st file).2).Nodup := by
  rcases hf : hashFile sum256 fs file with _ | d
  · simpa [fileChanged, hf] using h
  · simp only [fileChanged, hf]
    split
    · exact storeKeys_storeSet_nodup st _ d h
    · exact h

/-! ## `hashFilesAux` lemmas -/

theorem hashFilesAux_frame (sum256 : List Nat → Digest) (fs : FS)
    (files : List String) (st : Store) (k : String)
    (h : ∀ f ∈ files, pathBase f ≠ k) :
    storeFind (hashFilesAux sum256 fs st files) k = storeFind st k := by
  induction files generalizing st with
  | nil => rfl
  | cons f rest ih =>
      rcases hf : hashFile sum256 fs f with _ | d
      · simp only [hashFilesAux, hf]
        exact ih st (fun g hg => h g (List.mem_cons_of_mem f hg))
      · simp only [hashFilesAux, hf]
        rw [ih _ (fun g hg => h g (List.mem_cons_of_mem f hg)),
          storeFind_storeSet_ne st (Ne.symm (h f (List.mem_cons_self f rest))) d]

theorem hashFilesAux_find_some (sum256 : List Nat → Digest) (fs : FS)
    {files : List String} (hnd : (files.map pathBase).Nodup) {file : String}
    (hmem : file ∈ files) {data : List Nat} (hread : fs file = some data)
    (st : Store) :
    storeFind (hashFilesAux sum256 fs st files) (pathBase file)
      = some (sum256 data) := by
  induction files generalizing st with
  | nil => cases hmem
  | cons f rest ih =>
      simp only [List.map_cons, List.nodup_cons] at hnd
      rcases List.mem_cons.mp hmem with rfl | hmem'
      · have hf : hashFile sum256 fs file = some (sum256 data) := by
          simp [hashFile, hread]
        simp only [hashFilesAux, hf]
        rw [hashFilesAux_frame sum256 fs rest _ (pathBase file)
          (fun g hg hgk => hnd.1 (hgk ▸ List.mem_map_of_mem pathBase hg))]
        exact storeFind_storeSet_self st (pathBase file) (sum256 data)
      · rcases hf : hashFile sum256 fs f with _ | d
        · simp only [hashFilesAux, hf]
          exact ih hnd.2 hmem' st
        · simp only [hashFilesAux, hf]
          exact ih hnd.2 hmem' _

theorem hashFilesAux_find_none (sum256 : List Nat → Digest) (fs : FS)
    {files : List String} (hnd : (files.map pathBase).Nodup) {file : String}
    (hmem : file ∈ files) (hread : fs file = none) (st : Store) :
    storeFind (hashFilesAux sum256 fs st files) (pathBase file)
      = storeFind st (pathBase file) := by
  induction files generalizing st with
  | nil => cases hmem
  | cons f rest ih =>
      simp only [List.map_cons, List.nodup_cons] at hnd
      rcases List.mem_cons.mp hmem with rfl | hmem'
      · have hf : hashFile sum256 fs file = none := by simp [hashFile, hread]
        simp only [hashFilesAux, hf]
        exact hashFilesAux_frame sum256 fs rest st (pathBase file)
          (fun g hg hgk => hnd.1 (hgk ▸ List.mem_map_of_mem pathBase hg))
      · rcases hf : hashFile sum256 fs f with _ | d
        · simp only [hashFilesAux, hf]
          exact ih hnd.2 hmem' st
        · simp only [hashFilesAux, hf]
          rw [ih hnd.2 hmem' _,
            storeFind_storeSet_ne st
              (fun hgk => hnd.1
                (by rw [← hgk]; exact List.mem_map_of_mem pathBase hmem')) d]

theorem hashFilesAux_keys (sum256 : List Nat → Digest) (fs : FS)
    (files : List String) (st : Store) (k : String)
    (h : storeFind (hashFilesAux sum256 fs st files) k ≠ none) :
    storeFind st k ≠ none ∨ ∃ f ∈ files, pathBase f = k := by
  induction files generalizing st with
  | nil => exact Or.inl h
  | cons f rest ih =>
      rcases hf : hashFile sum256 fs f with _ | d
      · simp only [hashFilesAux, hf] at h
        rcases ih st h with h' | ⟨g, hg, hgk⟩
        · exact Or.inl h'
        · exact Or.inr ⟨g, List.mem_cons_of_mem f hg, hgk⟩
      · simp only [hashFilesAux, hf] at h
        rcases ih _ h with h' | ⟨g, hg, hgk⟩
        · by_cases hk : k = pathBase f
          · exact Or.inr ⟨f, List.mem_cons_self f rest, hk.symm⟩
          · rw [storeFind_storeSet_ne st hk d] at h'
            exact Or.inl h'
        · exact Or.inr ⟨g, List.mem_cons_of_mem f hg, hgk⟩

theorem hashFilesAux_nodup (sum256 : List Nat → Digest) (fs : FS)
    (files : List String) (st : Store) (h : (storeKeys st).Nodup) :
    (storeKeys (hashFilesAux sum256 fs st files)).Nodup := by
  induction files generalizing st with
  | nil => exact h
  | cons f rest ih =>
      rcases hf : hashFile sum256 fs f with _ | d
      · simp only [hashFilesAux, hf]
        exact ih st h
      · simp only [hashFilesAux, hf]
        exact ih _ (storeKeys_storeSet_nodup st _ d h)

/-! ## `runChecks` lemmas -/

theorem runChecks_append (sum256 : List Nat → Digest) (st : Store)
    (pre post : List (String × Option (List Nat))) :
    runChecks sum256 st (pre ++ post)
      = runChecks sum256 (runChecks sum256 st pre) post := by
  induction pre generalizing st with
  | nil => rfl
  | cons c rest ih =>
      obtain ⟨f, b⟩ := c
      simp only [List.cons_append, runChecks]
      exact ih _

theorem runChecks_isSome_mono (sum256 : List Nat → Digest) (st : Store)
    (checks : List (String × Option (List Nat))) (k : String)
    (h : storeFind st k ≠ none) :
    storeFind (runChecks sum256 st checks) k ≠ none := by
  induction checks generalizing st with
  | nil => exact h
  | cons c rest ih =>
      obtain ⟨f, b⟩ := c
      simp only [runChecks]
      exact ih _ (fileChanged_isSome_mono sum256 _ st f k h)

theorem runChecks_keys (sum256 : List Nat → Digest) (st : Store)
    (checks : List (String × Option (List Nat))) (files : List String)
    (hc : ∀ c ∈ checks, c.1 ∈ files) (k : String)
    (h : storeFind (runChecks sum256 st checks) k ≠ none) :
    storeFind st k ≠ none ∨ ∃ f ∈ files, pathBase f = k := by
  induction checks generalizing st with
  | nil => exact Or.inl h
  | cons c rest ih =>
      obtain ⟨f, b⟩ := c
      simp only [runChecks] at h
      rcases ih _ (fun c hc' => hc c (List.mem_cons_of_mem _ hc')) h with h' | h'
      · rcases fileChanged_keys_sub sum256 _ st f k h' with h'' | h''
        · exact Or.inl h''
        · exact Or.inr ⟨f, hc (f, b) (List.mem_cons_self _ rest), h''.symm⟩
      · exact Or.inr h'

theorem runChecks_nodup (sum256 : List Nat → Digest) (st : Store)
    (checks : List (String × Option (List Nat)))
    (h : (storeKeys st).Nodup) :
    (storeKeys (runChecks sum256 st checks)).Nodup := by
  induction checks generalizing st with
  | nil => exact h
  | cons c rest ih =>
      obtain ⟨f, b⟩ := c
      simp only [runChecks]
      exact ih _ (fileChanged_nodup sum256 _ st f h)

/-! ## Sweep lemmas -/

theorem watchSweepAux_change (sum256 : List Nat → Digest) (fs : FS)
    (files : List String) (change : Bool) (st : Store) :
    (watchSweepAux sum256 fs change st files).1
      = (change || (sweepDetects sum256 fs st files).any id) := by
  induction files generalizing change st with
  | nil => simp [watchSweepAux, sweepDetects]
  | cons f rest ih =>
      simp only [watchSweepAux, sweepDetects, List.any_cons, id]
      rw [ih, Bool.or_assoc]

/-! ## Concrete fixtures for witnesses and counterexamples -/

/-- A concrete digest function for closed instances: never the zero digest,
and distinguishes contents of different lengths. -/
def testHash : List Nat → Digest := fun data => List.replicate 31 0 ++ [data.length + 1]

/-- A digest function whose value is the Go zero value of `[32]byte`. -/
def zeroHash : List Nat → Digest := fun _ => zeroDigest

/-- A digest function with a constant nonzero value (every two contents
collide). -/
def constHash : List Nat → Digest := fun _ => List.replicate 31 0 ++ [1]

/-- A filesystem where every path reads as the single byte `1`. -/
def exFS1 : FS := fun _ => some [1]

/-- A filesystem where every read fails. -/
def exFS2 : FS := fun _ => none

/-- A filesystem where every path reads as the bytes `[5, 5]`. -/
def exFS3 : FS := fun _ => some [5, 5]

/-- A filesystem where `/a/x` reads as `[1]` and every other path as
`[2, 2]`. -/
def exFS8 : FS := fun s => if s = "/a/x" then some [1] else some [2, 2]

/-- A filesystem where `/a/x` reads as `[1]` and every other read fails. -/
def exFS9 : FS := fun s => if s = "/a/x" then some [1] else none

/-- A concrete one-entry store. -/
def exStore : Store := [("a.txt", testHash [7])]

example : sweepNotify testHash exFS3 [] ["a", "b"] = [true] := by decide

example :
    (processEvent testHash exFS1 (Event.mk "/d/x" 0) [] ["/a/x", "/b/x"]).1
      = [WatchAction.detect "/a/x", WatchAction.notify] := by decide

/-! ## Claim theorems -/

/-- **C1 counterexample.** The claim says a successful read with no store
entry for the base name always inserts the digest and returns `true`.  The Go
code reads the missing key as the zero value `[32]byte{}` and compares against
it, so a content whose digest is the zero digest is treated as unchanged: here
the read succeeds (`some [1]`), the store is empty, yet `fileChanged` returns
`false` and stores nothing. -/
theorem fileChanged_absent_cex :
    exFS1 "f" = some [1] ∧
    storeFind [] (pathBase "f") = none ∧
    (fileChanged zeroHash exFS1 [] "f").1 = false ∧
    storeFind (fileChanged zeroHash exFS1 [] "f").2 (pathBase "f") = none := by
  decide

/-- **C1 (amended).** If reading the file succeeds, the store has no entry for
the file's base name, and the computed digest is not the all-zero digest (the
Go zero value that indexing a map at a missing key yields), then `fileChanged`
inserts the newly computed digest under the base name and returns `true`. -/
theorem fileChanged_absent_inserts (sum256 : List Nat → Digest) (fs : FS)
    (st : Store) (file : String) (data : List Nat)
    (hread : fs file = some data)
    (habs : storeFind st (pathBase file) = none)
    (hnz : sum256 data ≠ zeroDigest) :
    (fileChanged sum256 fs st file).1 = true ∧
    storeFind (fileChanged sum256 fs st file).2 (pathBase file)
      = some (sum256 data) := by
  have hne : storeIndex st (pathBase file) ≠ sum256 data := by
    simp only [storeIndex, habs, Option.getD_none]
    exact fun h => hnz h.symm
  rw [fileChanged_diff sum256 st hread hne]
  exact ⟨rfl, storeFind_storeSet_self st _ _⟩

/-- Witness for **C1 (amended)** at a concrete input. -/
theorem fileChanged_absent_inserts_witness :
    (exFS1 "f" = some [1] ∧ storeFind [] (pathBase "f") = none ∧
      testHash [1] ≠ zeroDigest) ∧
    ((fileChanged testHash exFS1 [] "f").1 = true ∧
      storeFind (fileChanged testHash exFS1 [] "f").2 (pathBase "f")
        = some (testHash [1])) :=
  ⟨⟨rfl, rfl, by decide⟩,
    fileChanged_absent_inserts testHash exFS1 [] "f" [1] rfl rfl (by decide)⟩

/-- **C2.** If reading the file fails, `fileChanged` returns `false` and the
store is left exactly as it was: every entry, including the one for the file's
base name if any, is unchanged. -/
theorem fileChanged_read_failure_noop (sum256 : List Nat → Digest) (fs : FS)
    (st : Store) (file : String) (hread : fs file = none) :
    fileChanged sum256 fs st file = (false, st) ∧
    (∀ k, storeFind (fileChanged sum256 fs st file).2 k = storeFind st k) := by
  have h := fileChanged_read_err sum256 st hread
  exact ⟨h, fun k => by rw [h]⟩

/-- Witness for **C2** at a concrete input. -/
theorem fileChanged_read_failure_noop_witness :
    exFS2 "a.txt" = none ∧
    (fileChanged testHash exFS2 exStore "a.txt" = (false, exStore) ∧
      (∀ k, storeFind (fileChanged testHash exFS2 exStore "a.txt").2 k
        = storeFind exStore k)) :=
  ⟨rfl, fileChanged_read_failure_noop testHash exFS2 exStore "a.txt" rfl⟩

/-- **C3 counterexample.** The claim says that whenever the store holds the
digest of the file's previous bytes and the bytes change, the next
`fileChanged` returns `true`.  `fileChanged` only compares digests, so when
the digest function maps the old and the new bytes to the same value (a
collision) the changed bytes are not reported: here the store holds the digest
of the previous bytes `[0]`, the file now reads as `[5, 5] ≠ [0]`, yet
`fileChanged` returns `false`. -/
theorem fileChanged_change_cex :
    storeFind [("x", constHash [0])] (pathBase "x") = some (constHash [0]) ∧
    exFS3 "x" = some [5, 5] ∧ ([5, 5] : List Nat) ≠ [0] ∧
    (fileChanged constHash exFS3 [("x", constHash [0])] "x").1 = false := by
  decide

/-- **C3 (amended).** If the store entry for the file's base name holds the
digest of the previous bytes and the file now reads as bytes whose digest
differs from that stored digest (bytes changing does not by itself force this:
a digest collision hides the change), then the first `fileChanged` call
returns `true` and stores the new digest, and an immediately following call
with no further change returns `false` and leaves the store as the first call
left it — the change is reported exactly once. -/
theorem fileChanged_change_reported_once (sum256 : List Nat → Digest)
    (fs2 : FS) (st : Store) (file : String) (oldData newData : List Nat)
    (hprev : storeFind st (pathBase file) = some (sum256 oldData))
    (hread : fs2 file = some newData)
    (hdiff : sum256 newData ≠ sum256 oldData) :
    (fileChanged sum256 fs2 st file).1 = true ∧
    storeFind (fileChanged sum256 fs2 st file).2 (pathBase file)
      = some (sum256 newData) ∧
    fileChanged sum256 fs2 (fileChanged sum256 fs2 st file).2 file
      = (false, (fileChanged sum256 fs2 st file).2) := by
  have hne : storeIndex st (pathBase file) ≠ sum256 newData := by
    simp only [storeIndex, hprev, Option.getD_some]
    exact fun h => hdiff h.symm
  rw [fileChanged_diff sum256 st hread hne]
  refine ⟨rfl, storeFind_storeSet_self st _ _, ?_⟩
  exact fileChanged_same sum256 _ hread
    (by simp [storeIndex, storeFind_storeSet_self])

/-- Witness for **C3 (amended)** at a concrete input. -/
theorem fileChanged_change_reported_once_witness :
    (storeFind [("x", testHash [0])] (pathBase "x") = some (testHash [0]) ∧
      exFS3 "x" = some [5, 5] ∧ testHash [5, 5] ≠ testHash [0]) ∧
    ((fileChanged testHash exFS3 [("x", testHash [0])] "x").1 = true ∧
      storeFind (fileChanged testHash exFS3 [("x", testHash [0])] "x").2
        (pathBase "x") = some (testHash [5, 5]) ∧
      fileChanged testHash exFS3
          (fileChanged testHash exFS3 [("x", testHash [0])] "x").2 "x"
        = (false, (fileChanged testHash exFS3 [("x", testHash [0])] "x").2)) :=
  ⟨⟨by decide, rfl, by decide⟩,
    fileChanged_change_reported_once testHash exFS3 [("x", testHash [0])] "x"
      [0] [5, 5] (by decide) rfl (by decide)⟩

/-- **C4.** If the store entry for the file's base name equals the digest of
the bytes the file currently reads as, and the bytes do not change, then two
successive `fileChanged` calls both return `false` and the stored digest for
that base name is the same after both calls as before. -/
theorem fileChanged_unchanged_false (sum256 : List Nat → Digest) (fs : FS)
    (st : Store) (file : String) (data : List Nat)
    (hread : fs file = some data)
    (hprev : storeFind st (pathBase file) = some (sum256 data)) :
    fileChanged sum256 fs st file = (false, st) ∧
    fileChanged sum256 fs (fileChanged sum256 fs st file).2 file
      = (false, st) ∧
    storeFind (fileChanged sum256 fs
        (fileChanged sum256 fs st file).2 file).2 (pathBase file)
      = storeFind st (pathBase file) := by
  have h1 : fileChanged sum256 fs st file = (false, st) :=
    fileChanged_same sum256 st hread (by simp [storeIndex, hprev])
  refine ⟨h1, ?_, ?_⟩ <;> rw [h1] <;> rw [h1]

/-- Witness for **C4** at a concrete input. -/
theorem fileChanged_unchanged_false_witness :
    (exFS3 "x" = some [5, 5] ∧
      storeFind [("x", testHash [5, 5])] (pathBase "x")
        = some (testHash [5, 5])) ∧
    (fileChanged testHash exFS3 [("x", testHash [5, 5])] "x"
        = (false, [("x", testHash [5, 5])]) ∧
      fileChanged testHash exFS3
          (fileChanged testHash exFS3 [("x", testHash [5, 5])] "x").2 "x"
        = (false, [("x", testHash [5, 5])]) ∧
      storeFind (fileChanged testHash exFS3
          (fileChanged testHash exFS3 [("x", testHash [5, 5])] "x").2 "x").2
          (pathBase "x")
        = storeFind [("x", testHash [5, 5])] (pathBase "x")) :=
  ⟨⟨rfl, by decide⟩,
    fileChanged_unchanged_false testHash exFS3 [("x", testHash [5, 5])] "x"
      [5, 5] rfl (by decide)⟩

/-- **C10.** A `fileChanged` call modifies at most the single store entry
keyed by the file's base name: every other key reads the same before and
after, whether the call reports a change or not and whether the read succeeds
or fails. -/
theorem fileChanged_frame (sum256 : List Nat → Digest) (fs : FS) (st : Store)
    (file : String) (k : String) (hk : k ≠ pathBase file) :
    storeFind (fileChanged sum256 fs st file).2 k = storeFind st k :=
  fileChanged_frame_lemma sum256 fs st file k hk

/-- Witness for **C10** at a concrete input. -/
theorem fileChanged_frame_witness :
    ("b.txt" ≠ pathBase "/tmp/a.txt") ∧
    storeFind (fileChanged testHash exFS1 exStore "/tmp/a.txt").2 "b.txt"
      = storeFind exStore "b.txt" :=
  ⟨by decide,
    fileChanged_frame testHash exFS1 exStore "/tmp/a.txt" "b.txt" (by decide)⟩

/-- **C5.** One timed sweep sends at most one notification, and it sends one
if and only if `fileChanged` returned `true` for at least one file of the
sweep; in particular several files changing in the same interval still yield
exactly one notification. -/
theorem watchTimed_sweep_coalesces (sum256 : List Nat → Digest) (fs : FS)
    (st : Store) (files : List String) :
    (sweepNotify sum256 fs st files).length ≤ 1 ∧
    ((sweepNotify sum256 fs st files).length = 1 ↔
      (sweepDetects sum256 fs st files).any id = true) := by
  unfold sweepNotify
  rw [watchSweepAux_change]
  constructor
  · split <;> simp
  · simp only [Bool.false_or]
    split <;> simp_all

/-- **C6.** Per received event, at most one watched file is processed: the
`fileChanged` invocations of one `watchAuto` iteration are exactly on the
first file of the list whose base name equals the event target's base name
(none when no file matches, also when several files share that base name),
and at most one notification is sent. -/
theorem watchAuto_first_match_only (sum256 : List Nat → Digest) (fs : FS)
    (ev : Event) (st : Store) (files : List String) :
    ((processEvent sum256 fs ev st files).1.filterMap detectTarget)
      = (files.find? fun file => pathBase ev.name == pathBase file).toList ∧
    ((processEvent sum256 fs ev st files).1.countP isDetect) ≤ 1 ∧
    ((processEvent sum256 fs ev st files).1.countP isNotify) ≤ 1 := by
  induction files generalizing st with
  | nil => simp [processEvent]
  | cons f rest ih =>
      by_cases h : pathBase ev.name = pathBase f
      · rw [List.find?_cons_of_pos _ (by simpa using h)]
        simp only [processEvent, if_pos h]
        refine ⟨?_, ?_, ?_⟩ <;>
          split <;>
            simp [detectTarget, isDetect, isNotify, List.countP_cons] <;>
              split <;> simp [detectTarget, isDetect, isNotify, List.countP_cons]
      · rw [List.find?_cons_of_neg _ (by simpa using h)]
        simp only [processEvent, if_neg h]
        exact ih st

/-- **C7.** When a received event has the `Create` bit set and some watched
file matches its base name, the `watchAuto` iteration re-registers a watch on
that file's full path (a `watcher.Add(file)` effect) before invoking
`fileChanged` on it. -/
theorem watchAuto_create_readds (sum256 : List Nat → Digest) (fs : FS)
    (ev : Event) (st : Store) (files : List String) (file : String)
    (hop : ev.op &&& fsnotifyCreate = fsnotifyCreate)
    (hfind : files.find? (fun f => pathBase ev.name == pathBase f)
      = some file) :
    ∃ rest, (processEvent sum256 fs ev st files).1
      = WatchAction.add file :: WatchAction.detect file :: rest := by
  induction files generalizing st with
  | nil => simp at hfind
  | cons f fl ih =>
      by_cases h : pathBase ev.name = pathBase f
      · rw [List.find?_cons_of_pos _ (by simpa using h)] at hfind
        obtain rfl : f = file := by injection hfind
        simp only [processEvent, if_pos h, if_pos hop]
        exact ⟨_, rfl⟩
      · rw [List.find?_cons_of_neg _ (by simpa using h)] at hfind
        simp only [processEvent, if_neg h]
        exact ih st hfind

/-- Witness for **C7** at a concrete input. -/
theorem watchAuto_create_readds_witness :
    ((Event.mk "/tmp/a.txt" 1).op &&& fsnotifyCreate = fsnotifyCreate ∧
      ["/tmp/a.txt"].find?
          (fun f => pathBase (Event.mk "/tmp/a.txt" 1).name == pathBase f)
        = some "/tmp/a.txt") ∧
    (∃ rest,
      (processEvent testHash exFS1 (Event.mk "/tmp/a.txt" 1) exStore
          ["/tmp/a.txt"]).1
        = WatchAction.add "/tmp/a.txt" :: WatchAction.detect "/tmp/a.txt"
            :: rest) :=
  ⟨⟨by decide, by decide⟩,
    watchAuto_create_readds testHash exFS1 (Event.mk "/tmp/a.txt" 1) exStore
      ["/tmp/a.txt"] "/tmp/a.txt" (by decide) (by decide)⟩

/-- **C8 counterexample.** The claim says `hashFiles` gives every readable
file an entry holding the digest of its own contents.  With two watched files
sharing the base name `x` and holding different contents, the single entry for
`x` holds the digest of the later file's contents, not the earlier's. -/
theorem hashFiles_duplicate_base_cex :
    exFS8 "/a/x" = some [1] ∧
    storeFind (hashFiles testHash exFS8 ["/a/x", "/b/x"]) (pathBase "/a/x")
      ≠ some (testHash [1]) := by
  decide

/-- **C8 (amended).** When the watched files' base names are pairwise
distinct, `hashFiles` returns a store whose entry at each file's base name is
exactly the file's hash result: the digest of its full contents when the read
succeeds, and no entry when the read fails — one file's read failure does not
disturb any other file's entry. -/
theorem hashFiles_populates (sum256 : List Nat → Digest) (fs : FS)
    (files : List String) (hnd : (files.map pathBase).Nodup)
    (file : String) (hmem : file ∈ files) :
    storeFind (hashFiles sum256 fs files) (pathBase file)
      = hashFile sum256 fs file := by
  rcases hread : fs file with _ | data
  · rw [hashFiles, hashFilesAux_find_none sum256 fs hnd hmem hread []]
    simp [hashFile, hread, storeFind]
  · rw [hashFiles, hashFilesAux_find_some sum256 fs hnd hmem hread []]
    simp [hashFile, hread]

/-- Witness for **C8 (amended)** at a concrete input: over the files
`/a/x` (readable) and `/b/y` (read fails), instantiated at the readable
one. -/
theorem hashFiles_populates_witness :
    ((["/a/x", "/b/y"].map pathBase).Nodup ∧ "/a/x" ∈ ["/a/x", "/b/y"]) ∧
    storeFind (hashFiles testHash exFS9 ["/a/x", "/b/y"]) (pathBase "/a/x")
      = hashFile testHash exFS9 "/a/x" :=
  ⟨⟨by decide, by decide⟩,
    hashFiles_populates testHash exFS9 ["/a/x", "/b/y"] (by decide) "/a/x"
      (by decide)⟩

/-- **C9.** After initial population and any sequence of checks on files of
the watched list, every key of the store is the base name of some watched
file, the store has at most one entry per base name (its key list has no
duplicate), and no entry is ever deleted: every key present after any prefix
of the checks is still present at the end. -/
theorem store_invariant (sum256 : List Nat → Digest) (fs0 : FS)
    (files : List String) (checks : List (String × Option (List Nat)))
    (hc : ∀ c ∈ checks, c.1 ∈ files) :
    (∀ k, storeFind (runChecks sum256 (hashFiles sum256 fs0 files) checks) k
        ≠ none → ∃ f ∈ files, pathBase f = k) ∧
    (storeKeys (runChecks sum256 (hashFiles sum256 fs0 files) checks)).Nodup ∧
    (∀ pre post, checks = pre ++ post → ∀ k,
      storeFind (runChecks sum256 (hashFiles sum256 fs0 files) pre) k
        ≠ none →
      storeFind (runChecks sum256 (hashFiles sum256 fs0 files) checks) k
        ≠ none) := by
  refine ⟨?_, ?_, ?_⟩
  · intro k hk
    rcases runChecks_keys sum256 _ checks files hc k hk with h | h
    · rcases hashFilesAux_keys sum256 fs0 files [] k h with h' | h'
      · simp [storeFind] at h'
      · exact h'
    · exact h
  · exact runChecks_nodup sum256 _ checks
      (hashFilesAux_nodup sum256 fs0 files [] (by simp [storeKeys]))
  · intro pre post hsplit k hk
    rw [hsplit, runChecks_append]
    exact runChecks_isSome_mono sum256 _ post k hk

/-- Witness for **C9** at a concrete input: two watched files, one check that
overwrites and one whose read fails. -/
theorem store_invariant_witness :
    (∀ c ∈ [("/a/x", some [9]), ("/b/y", (none : Option (List Nat)))],
      c.1 ∈ ["/a/x", "/b/y"]) ∧
    ((∀ k, storeFind (runChecks testHash (hashFiles testHash exFS8
          ["/a/x", "/b/y"])
          [("/a/x", some [9]), ("/b/y", none)]) k ≠ none →
        ∃ f ∈ ["/a/x", "/b/y"], pathBase f = k) ∧
      (storeKeys (runChecks testHash (hashFiles testHash exFS8
          ["/a/x", "/b/y"])
          [("/a/x", some [9]), ("/b/y", none)])).Nodup ∧
      (∀ pre post,
        [("/a/x", some [9]), ("/b/y", (none : Option (List Nat)))]
          = pre ++ post → ∀ k,
        storeFind (runChecks testHash (hashFiles testHash exFS8
          ["/a/x", "/b/y"]) pre) k ≠ none →
        storeFind (runChecks testHash (hashFiles testHash exFS8
          ["/a/x", "/b/y"])
          [("/a/x", some [9]), ("/b/y", none)]) k ≠ none)) :=
  ⟨by decide,
    store_invariant testHash exFS8 ["/a/x", "/b/y"]
      [("/a/x", some [9]), ("/b/y", none)] (by decide)⟩
